import Mathlib

/-!
# Verification of the Al Jadeed notifications scraper core

A shallow embedding of the pure/stateful core of `jadeed-scraper.py`:
the CSV-backed record store, the datetime normalizer, the article
extractor (body/category), the per-article fetcher with retries, and the
pagination crawler's per-batch loop with its stop condition.

Python dicts of strings are modelled as association lists
(`Row := List (String × String)`); Python's `None` dict value from a
short CSV row is modelled as the empty string (both are falsy under
`if row.get("URL")` and neither equals a real URL).  The on-disk file
is modelled at record granularity (`List (List String)` of cell rows):
the CSV line-quoting layer is abstracted away, which no claim exercises.
Wall-clock sleeps and logging are dropped; everything else follows the
source line by line.
-/

namespace Jadeed

/-! ## Character-list string primitives

Python's string operations are modelled over `List Char` (via
`String.data`/`String.mk`) so that every definition evaluates inside
the kernel. -/

/-- Python `s.split(sep)` for a one-character separator, generalized to
a predicate: split at every matching character, keeping empty pieces. -/
def splitWhen (p : Char → Bool) : List Char → List (List Char)
  | [] => [[]]
  | c :: rest =>
    if p c then [] :: splitWhen p rest
    else
      match splitWhen p rest with
      | q :: qs => (c :: q) :: qs
      | [] => [[c]]

/-- Python `s.split(marker)[0]`: the prefix before the first occurrence
of `sep` (the whole list when `sep` does not occur). -/
def takeBefore (sep : List Char) : List Char → List Char
  | [] => []
  | c :: rest =>
    if sep.isPrefixOf (c :: rest) then []
    else c :: takeBefore sep rest

/-- Python `s.strip()` on a character list. -/
def trimChars (l : List Char) : List Char :=
  ((l.dropWhile Char.isWhitespace).reverse.dropWhile Char.isWhitespace).reverse

/-- Python `s.strip()`. -/
def pyStrip (s : String) : String :=
  String.mk (trimChars s.data)

/-- Accumulating loop of `pyToNat?`. -/
def pyToNatGo : List Char → Nat → Option Nat
  | [], acc => some acc
  | c :: rest, acc =>
    if '0' ≤ c ∧ c ≤ '9' then pyToNatGo rest (acc * 10 + (c.toNat - '0'.toNat))
    else none

/-- `int(s)` on a digit run: `none` unless the characters are one or
more decimal digits. -/
def pyToNat? (l : List Char) : Option Nat :=
  if l = [] then none else pyToNatGo l 0

/-- `sep.join(parts)`. -/
def joinWith (sep : String) (parts : List String) : String :=
  String.mk (List.intercalate sep.data (parts.map String.data))

/-- A Python `Dict[str, str]` article row, as an association list. -/
def Row : Type := List (String × String)

instance : DecidableEq Row := by unfold Row; infer_instance

/-- `row.get(k)`: first binding of `k`, `none` when the key is absent. -/
def Row.get (r : Row) (k : String) : Option String :=
  List.lookup k r

/-- Python truthiness of `row.get(k)`: `None` and `""` are falsy. -/
def Row.truthyGet (r : Row) (k : String) : Bool :=
  match r.get k with
  | none => false
  | some s => s ≠ ""

/-- The fixed CSV header (`CSV_FIELDS` in the source). -/
def CSV_FIELDS : List String :=
  ["ScrapedAt", "PublishedAt", "URL", "Title", "Body", "Category",
   "IsNotificationOnly"]

/-- The known category labels (`KNOWN_CATEGORIES` in the source). -/
def KNOWN_CATEGORIES : List String :=
  ["محليات", "عربي و دولي", "النشرة", "إقتصاد", "رياضة", "خاص الجديد",
   "فن و منوعات"]

/-- The filesystem visible to the store: the committed CSV file and the
temporary file used by the rewrite.  `none` = file does not exist.
Contents are kept at record granularity (one `List String` of cells per
line). -/
structure FS where
  store : Option (List (List String))
  tmp : Option (List (List String))
deriving DecidableEq

/-- Serialize one row against the fixed header, as `csv.DictWriter` does
for the fields of `CSV_FIELDS` (missing keys become empty cells). -/
def serializeRow (r : Row) : List String :=
  CSV_FIELDS.map (fun k => (r.get k).getD "")

/-- First phase of `write_full_csv`: write header and all rows to the
temporary file `csv_path + ".tmp"`. -/
def writeTmp (fs : FS) (all_rows : List Row) : FS :=
  { fs with tmp := some (CSV_FIELDS :: all_rows.map serializeRow) }

/-- Second phase of `write_full_csv`: `os.replace(tmp_path, csv_path)`,
atomically renaming the temp file over the store file. -/
def commitTmp (fs : FS) : FS :=
  { store := fs.tmp, tmp := none }

/-- `write_full_csv(csv_path, all_rows)`: write the whole CSV to a temp
file, then rename it over the store path. -/
def write_full_csv (fs : FS) (all_rows : List Row) : FS :=
  commitTmp (writeTmp fs all_rows)

/-- Insert into the known-URL set (`set.add`); the set is modelled as a
duplicate-free list. -/
def insertUrl (u : String) (urls : List String) : List String :=
  if u ∈ urls then urls else u :: urls

/-- In-memory mirror of the store plus the filesystem: the ordered row
list (`all_rows`), the known-URL set (`existing_urls`) and the files. -/
structure Store where
  fs : FS
  rows : List Row
  urls : List String
deriving DecidableEq

/-- The `csv.DictReader` view of one data line: zip the header with the
line's cells, missing cells becoming the falsy restval. -/
def dictOfLine (header : List String) (cells : List String) : Row :=
  header.zip (cells ++ List.replicate header.length "")

/-- The `for row in reader` body of `load_existing_articles`. -/
def loadStep (header : List String) (acc : List Row × List String)
    (cells : List String) : List Row × List String :=
  (acc.1 ++ [dictOfLine header cells],
   if (dictOfLine header cells).truthyGet "URL" then
     insertUrl (((dictOfLine header cells).get "URL").getD "") acc.2
   else acc.2)

/-- `load_existing_articles(csv_path)`: `none` input means the file does
not exist (empty collections); otherwise `csv.DictReader` treats the
first line as the header and zips every further line with it, and each
row with a truthy `URL` value adds that URL to the set. -/
def load_existing_articles (file : Option (List (List String))) :
    List Row × List String :=
  match file with
  | none => ([], [])
  | some [] => ([], [])
  | some (header :: records) => records.foldl (loadStep header) ([], [])

/-- `prepend_article_to_csv_top(csv_path, all_rows, existing_urls,
article)`: skip when the article has no (truthy) URL or the URL is
already known; otherwise add the URL to the set, insert the row at the
head of the list and rewrite the CSV.  The boolean reports whether a
rewrite was performed. -/
def prepend_article_to_csv_top (st : Store) (article : Row) :
    Store × Bool :=
  if ¬ article.truthyGet "URL" then (st, false)
  else if (article.get "URL").getD "" ∈ st.urls then (st, false)
  else
    let rows := article :: st.rows
    let urls := insertUrl ((article.get "URL").getD "") st.urls
    (⟨write_full_csv st.fs rows, rows, urls⟩, true)

/-! ## Datetime normalizer -/

/-- A Python `datetime` at minute precision (the scraper never keeps
seconds). -/
structure PyDateTime where
  year : Nat
  month : Nat
  day : Nat
  hour : Nat
  minute : Nat
deriving DecidableEq, Repr

/-- `datetime.__lt__`: field-lexicographic comparison. -/
def PyDateTime.lt (a b : PyDateTime) : Bool :=
  if a.year ≠ b.year then a.year < b.year
  else if a.month ≠ b.month then a.month < b.month
  else if a.day ≠ b.day then a.day < b.day
  else if a.hour ≠ b.hour then a.hour < b.hour
  else a.minute < b.minute

def pad2 (n : Nat) : String :=
  if n < 10 then "0" ++ toString n else toString n

def pad4 (n : Nat) : String :=
  if n < 10 then "000" ++ toString n
  else if n < 100 then "00" ++ toString n
  else if n < 1000 then "0" ++ toString n
  else toString n

/-- `dt.isoformat(timespec="minutes")`. -/
def PyDateTime.isoMinutes (d : PyDateTime) : String :=
  pad4 d.year ++ "-" ++ pad2 d.month ++ "-" ++ pad2 d.day ++ "T" ++
    pad2 d.hour ++ ":" ++ pad2 d.minute

def isLeap (y : Nat) : Bool :=
  (y % 4 == 0 && y % 100 != 0) || y % 400 == 0

def daysInMonth (y m : Nat) : Nat :=
  if m = 2 then (if isLeap y then 29 else 28)
  else if m = 4 ∨ m = 6 ∨ m = 9 ∨ m = 11 then 30
  else 31

/-- `datetime(y, m, d, h, mi)`: `none` models the `ValueError` raised on
out-of-range components. -/
def mkDateTime (y m d h mi : Nat) : Option PyDateTime :=
  if 1 ≤ y ∧ y ≤ 9999 ∧ 1 ≤ m ∧ m ≤ 12 ∧ 1 ≤ d ∧ d ≤ daysInMonth y m ∧
      h ≤ 23 ∧ mi ≤ 59 then
    some ⟨y, m, d, h, mi⟩
  else none

/-- The external `dateutil.parser.parse(cleaned, dayfirst=False)`
restricted to the `YYYY-MM-DD HH:MM` shape the source feeds it (the
spec's supported pattern).  Any input not of that shape is a parse
failure (`none`).  The `dayfirst` flag only affects ambiguous
day/month orderings, which this shape does not have, so it is accepted
and ignored exactly as `dateutil` would. -/
def dateutil_parse (dayfirst : Bool) (s : String) : Option PyDateTime :=
  match splitWhen (· == ' ') s.data with
  | [d, t] =>
    (match splitWhen (· == '-') d, splitWhen (· == ':') t with
     | [y, m, dd], [h, mi] =>
       (match pyToNat? y, pyToNat? m, pyToNat? dd, pyToNat? h,
          pyToNat? mi with
        | some yn, some mn, some dn, some hn, some min2 =>
          mkDateTime yn mn dn hn min2
        | _, _, _, _, _ => none)
     | _, _ => none)
  | _ => none

/-- Python `str.split()` with no arguments: split on whitespace runs,
dropping empty pieces. -/
def pySplitWs (s : String) : List String :=
  ((splitWhen Char.isWhitespace s.data).filter (· ≠ [])).map String.mk

/-- `parse_published_datetime(dt_text)`: replace `'|'` by a space,
collapse whitespace, hand to the date parser; `none` on any failure. -/
def parse_published_datetime (dt_text : String) : Option PyDateTime :=
  let cleaned := String.mk (dt_text.data.map
    (fun c => if c = '|' then ' ' else c))
  let cleaned := joinWith " " (pySplitWs cleaned)
  dateutil_parse false cleaned

/-- `datetime.fromisoformat` on the strings this program produces
(`YYYY-MM-DDTHH:MM`, the minute-precision `isoformat` output); `none`
models the `ValueError` on anything malformed. -/
def fromisoformat (s : String) : Option PyDateTime :=
  match splitWhen (· == 'T') s.data with
  | [d, t] =>
    (match splitWhen (· == '-') d, splitWhen (· == ':') t with
     | [y, m, dd], [h, mi] =>
       if y.length = 4 ∧ m.length = 2 ∧ dd.length = 2 ∧ h.length = 2 ∧
           mi.length = 2 then
         (match pyToNat? y, pyToNat? m, pyToNat? dd, pyToNat? h,
            pyToNat? mi with
          | some yn, some mn, some dn, some hn, some min2 =>
            mkDateTime yn mn dn hn min2
          | _, _, _, _, _ => none)
       else none
     | _, _ => none)
  | _ => none

/-! ## Article extractor -/

/-- `extract_category(driver)`: the page's link texts in document
order; return the first whose stripped text is exactly a known
category label, else `""`. -/
def extract_category (links : List String) : String :=
  match links with
  | [] => ""
  | a :: rest =>
    let text := pyStrip a
    if text ∈ KNOWN_CATEGORIES then text else extract_category rest

/-- What `extract_body` sees of the page: the short-description
element's text (`none` when the element is missing), the `.LongDesc`
container's text, and, per generic selector of
`ARTICLE_BODY_CANDIDATES`, the texts of its matched elements. -/
structure BodyPage where
  shortDesc : Option String
  longDesc : Option String
  genericParas : List (List String)
deriving DecidableEq

/-- The marker heading the related-articles section. -/
def relatedMarker : String := "مقالات ذات صلة"

/-- The `full_text_parts` list built from the short and long
description regions. -/
def descParts (page : BodyPage) : List String :=
  (match page.shortDesc with
   | none => []
   | some s => if pyStrip s ≠ "" then [pyStrip s] else []) ++
  (match page.longDesc with
   | none => []
   | some t =>
     if pyStrip t ≠ "" then
       [pyStrip (String.mk (takeBefore relatedMarker.data
         (pyStrip t).data))]
     else [])

/-- `extract_body(driver)`: short+long description when either region
yields text, otherwise the generic paragraph fallback. -/
def extract_body (page : BodyPage) : String :=
  let full_text_parts := descParts page
  if full_text_parts = [] then
    let paragraphs := page.genericParas.foldl
      (fun acc elems => acc ++ (elems.map pyStrip).filter (· ≠ "")) []
    if paragraphs ≠ [] then joinWith "\n" paragraphs
    else pyStrip (joinWith "\n\n" full_text_parts)
  else pyStrip (joinWith "\n\n" full_text_parts)

/-- `"True" if not body else "False"` in `scrape_article_in_new_tab`. -/
def isNotificationOnly (body : String) : String :=
  if body = "" then "True" else "False"

/-! ## Item fetcher (browsing-context lifecycle) -/

/-- The page driver's window state: the open window handles in creation
order and the focused handle. -/
structure Driver where
  windows : List Nat
  current : Nat
deriving DecidableEq

/-- What one fetch attempt does, as decided by the environment:
the page renders (`success` with the extracted row), the readiness
wait times out after the new tab opened (`timeoutAfterOpen`), or the
attempt fails before any tab exists (`openFailed`). -/
inductive AttemptOutcome where
  | success (article : Row)
  | timeoutAfterOpen
  | openFailed
deriving DecidableEq

/-- A fresh window handle. -/
def newHandle (d : Driver) : Nat :=
  d.windows.foldr Nat.max 0 + 1

/-- One iteration of the retry loop of `scrape_article_in_new_tab`:
on success the new tab is opened, focused, scraped, closed, and focus
returns to `orig`; on any exception the cleanup loop closes every
handle other than `orig` and switches back to `orig`. -/
def attemptOnce (d : Driver) (orig : Nat) (o : AttemptOutcome) :
    Driver × Option Row :=
  match o with
  | .openFailed =>
    (⟨d.windows.filter (· == orig), orig⟩, none)
  | .timeoutAfterOpen =>
    let h := newHandle d
    (⟨(d.windows ++ [h]).filter (· == orig), orig⟩, none)
  | .success art =>
    let h := newHandle d
    (⟨(d.windows ++ [h]).filter (· != h), orig⟩, some art)

/-- The retry loop: `n` attempts remain, `used` were made.  Returns the
driver, the article (or `none` after exhaustion) and the number of
attempts made. -/
def scrapeGo (outcomes : Nat → AttemptOutcome) (orig : Nat) :
    Nat → Nat → Driver → Driver × Option Row × Nat
  | 0, used, d => (d, none, used)
  | Nat.succ n, used, d =>
    match attemptOnce d orig (outcomes used) with
    | (d1, some art) => (d1, some art, used + 1)
    | (d1, none) => scrapeGo outcomes orig n (used + 1) d1

/-- `scrape_article_in_new_tab(driver, url, max_retries)`: remember the
original window, then try up to `max_retries` times. -/
def scrape_article_in_new_tab (d : Driver) (outcomes : Nat → AttemptOutcome)
    (max_retries : Nat) : Driver × Option Row × Nat :=
  scrapeGo outcomes d.current max_retries 0 d

/-! ## Pagination crawler: one batch of new feed items -/

/-- One notification card as the crawler sees it: the card link's
`href` (`none` when the link element or its URL is missing) and the
result of fetching the article behind it. -/
structure NotifItem where
  url : Option String
  fetched : Option Row

/-- The `published_dt` the crawler computes before the stop test:
re-parse the article's `PublishedAt` field when it is truthy. -/
def articlePublished (article : Row) : Option PyDateTime :=
  match article.get "PublishedAt" with
  | none => none
  | some s => if s = "" then none else fromisoformat s

/-- The `for idx in range(processed_notif_count, len(notif_items))`
body of `scrape_notifications_page`: skip no-link / no-URL / known
items; fetch; stop (without accepting) as soon as a parsed published
time is strictly before `until_dt`; otherwise accept into the store.
Returns the store and the `stop` flag. -/
def processBatch (until_dt : PyDateTime) :
    List NotifItem → Store → Store × Bool
  | [], st => (st, false)
  | item :: rest, st =>
    match item.url with
    | none => processBatch until_dt rest st
    | some url =>
      if url = "" then processBatch until_dt rest st
      else if url ∈ st.urls then processBatch until_dt rest st
      else
        match item.fetched with
        | none => processBatch until_dt rest st
        | some article =>
          match articlePublished article with
          | some pd =>
            if pd.lt until_dt then (st, true)
            else processBatch until_dt rest
              (prepend_article_to_csv_top st article).1
          | none => processBatch until_dt rest
              (prepend_article_to_csv_top st article).1

/-! ## Synthetic feeds for the crawl-level properties -/

/-- A store backed by filesystem `fs0` with nothing loaded (what
`load_existing_articles` yields for a missing file). -/
def initStore (fs0 : FS) : Store :=
  ⟨fs0, [], []⟩

/-- The article row `scrape_article_in_new_tab` builds for a rendered
page with URL `u` and published time `t` (the `ScrapedAt` wall-clock
value is irrelevant to every property below). -/
def synthRow (u : String) (t : PyDateTime) : Row :=
  [("ScrapedAt", ""), ("PublishedAt", t.isoMinutes), ("URL", u),
   ("Title", u), ("Body", "body"), ("Category", ""),
   ("IsNotificationOnly", "False")]

/-- A synthetic feed card: link `u`, article fetch succeeding with
published time `t`. -/
def synthItem (p : String × PyDateTime) : NotifItem :=
  ⟨some p.1, some (synthRow p.1 p.2)⟩

/-- An instant that survives the minute-precision ISO round trip; every
in-range `datetime` does, and `decide` checks any concrete one. -/
def ValidInstant (t : PyDateTime) : Prop :=
  fromisoformat t.isoMinutes = some t ∧ t.isoMinutes ≠ ""

instance (t : PyDateTime) : Decidable (ValidInstant t) := by
  unfold ValidInstant; infer_instance

/-- Accept the synthetic articles of `ps`, in order, into `st`. -/
def acceptAll (st : Store) (ps : List (String × PyDateTime)) : Store :=
  ps.foldl (fun st p => (prepend_article_to_csv_top st (synthRow p.1 p.2)).1)
    st

/-!
# Theorems
-/

/-- C3: the store rewrite is atomic.  After the temp file is written
but before the rename commits, the committed store file is unchanged
(never truncated or partially written); the rename then installs the
new content whole and removes the temp file. -/
theorem atomic_rewrite_preserves_store (fs : FS) (rows : List Row) :
    (writeTmp fs rows).store = fs.store ∧
    (write_full_csv fs rows).store
      = some (CSV_FIELDS :: rows.map serializeRow) ∧
    (write_full_csv fs rows).tmp = none :=
  ⟨rfl, rfl, rfl⟩

/-- C6: the datetime normalizer turns `"2025-11-18 | 13:57"` into the
instant whose minute-precision ISO form is `"2025-11-18T13:57"`, having
cleaned the pipe and handed the text to the external parser with
day-first ordering disabled; a malformed input yields `none` instead of
an error. -/
theorem parse_datetime_normalization :
    (parse_published_datetime "2025-11-18 | 13:57").map PyDateTime.isoMinutes
      = some "2025-11-18T13:57" ∧
    parse_published_datetime "2025-11-18 | 13:57"
      = dateutil_parse false "2025-11-18 13:57" ∧
    parse_published_datetime "notadate" = none := by
  decide

/-- C2: `prepend_article_to_csv_top` is dedup-idempotent.  A first call
with a fresh URL inserts the record at the head of the row list, adds
the URL to the known set and performs one full rewrite; a second call
with the same URL changes neither the rows, the set nor the file, and
performs no rewrite; the store then holds exactly one record with that
URL. -/
theorem accept_dedup_idempotent (st : Store) (a b : Row) (u : String)
    (ha : a.get "URL" = some u) (hb : b.get "URL" = some u) (hu : u ≠ "")
    (hfresh : u ∉ st.urls)
    (hcount : st.rows.countP (fun r => r.get "URL" == some u) = 0) :
    prepend_article_to_csv_top st a
      = (⟨write_full_csv st.fs (a :: st.rows), a :: st.rows,
          u :: st.urls⟩, true) ∧
    prepend_article_to_csv_top (prepend_article_to_csv_top st a).1 b
      = ((prepend_article_to_csv_top st a).1, false) ∧
    (prepend_article_to_csv_top st a).1.rows.countP
        (fun r => r.get "URL" == some u) = 1 := by
  have htruthy : a.truthyGet "URL" = true := by
    simp [Row.truthyGet, ha, hu]
  have hbtruthy : b.truthyGet "URL" = true := by
    simp [Row.truthyGet, hb, hu]
  have hfirst : prepend_article_to_csv_top st a
      = (⟨write_full_csv st.fs (a :: st.rows), a :: st.rows,
          u :: st.urls⟩, true) := by
    simp [prepend_article_to_csv_top, htruthy, ha, hfresh, insertUrl]
  refine ⟨hfirst, ?_, ?_⟩
  · rw [hfirst]
    simp [prepend_article_to_csv_top, hbtruthy, hb]
  · rw [hfirst]
    simp [List.countP_cons, ha, hcount]

/-- Concrete instance of `accept_dedup_idempotent`: accepting the same
URL twice into an empty store leaves the second call a no-op. -/
theorem accept_dedup_idempotent_witness :
    prepend_article_to_csv_top
        (prepend_article_to_csv_top (initStore ⟨none, none⟩)
          [("URL", "u")]).1 [("URL", "u")]
      = ((prepend_article_to_csv_top (initStore ⟨none, none⟩)
          [("URL", "u")]).1, false) :=
  (accept_dedup_idempotent (initStore ⟨none, none⟩) [("URL", "u")]
    [("URL", "u")] "u" (by decide) (by decide) (by decide) (by decide)
    (by decide)).2.1

theorem extract_category_of_no_match (links : List String)
    (h : ∀ a ∈ links, pyStrip a ∉ KNOWN_CATEGORIES) :
    extract_category links = "" := by
  induction links with
  | nil => rfl
  | cons a rest ih =>
    have ha := h a (List.mem_cons_self a rest)
    simp only [extract_category, if_neg ha]
    exact ih (fun x hx => h x (List.mem_cons_of_mem a hx))

/-- C9: category extraction returns the trimmed text of the first link
whose trimmed text is exactly one of the known category labels, in page
order; when no link matches exactly (substring containment does not
count), it returns the empty string. -/
theorem category_exact_first_match (pre post : List String) (l : String)
    (hpre : ∀ a ∈ pre, pyStrip a ∉ KNOWN_CATEGORIES)
    (hl : pyStrip l ∈ KNOWN_CATEGORIES) :
    extract_category (pre ++ l :: post) = pyStrip l ∧
    (∀ links : List String,
      (∀ a ∈ links, pyStrip a ∉ KNOWN_CATEGORIES) →
        extract_category links = "") := by
  refine ⟨?_, extract_category_of_no_match⟩
  induction pre with
  | nil => simp [extract_category, hl]
  | cons a rest ih =>
    have ha := hpre a (List.mem_cons_self a rest)
    simp only [List.cons_append, extract_category, if_neg ha]
    exact ih (fun x hx => hpre x (List.mem_cons_of_mem a hx))

/-- Concrete instance of `category_exact_first_match`: an early link
that merely contains a label as a substring is passed over; the first
exact (trimmed) match wins. -/
theorem category_exact_first_match_witness :
    extract_category (["x", "محليات والعالم"] ++ " محليات " :: ["رياضة"])
      = "محليات" :=
  (category_exact_first_match ["x", "محليات والعالم"] ["رياضة"] " محليات "
    (by decide) (by decide)).1.trans (by decide)

/-- C7: body extraction priority.  When the short/long description
regions yield non-empty trimmed text, that content (long description
truncated at the related-articles marker) is returned whatever the
generic paragraph selectors would say; when both regions yield
nothing, the generic selectors are tried in order; and the record is
marked notification-only exactly when the body is empty. -/
theorem body_extraction_fallback (page : BodyPage) (b : String) :
    (descParts page ≠ [] →
      ∀ g : List (List String),
        extract_body ⟨page.shortDesc, page.longDesc, g⟩
          = pyStrip (joinWith "\n\n" (descParts page))) ∧
    (descParts page = [] →
      extract_body page
        = (if (page.genericParas.foldl
              (fun acc elems => acc ++ (elems.map pyStrip).filter (· ≠ ""))
              []) ≠ [] then
            joinWith "\n" (page.genericParas.foldl
              (fun acc elems => acc ++ (elems.map pyStrip).filter (· ≠ ""))
              [])
          else "")) ∧
    (isNotificationOnly b = "True" ↔ b = "") := by
  obtain ⟨sd, ld, gp⟩ := page
  refine ⟨?_, ?_, ?_⟩
  · intro hne g
    have hd : descParts ⟨sd, ld, g⟩ = descParts ⟨sd, ld, gp⟩ := rfl
    simp only [extract_body, hd]
    rw [if_neg hne]
  · intro h
    simp only [extract_body, h, if_pos rfl] at h ⊢
    split
    · rfl
    · rfl
  · unfold isNotificationOnly
    by_cases hb : b = "" <;> simp [hb]

/-- Concrete instance of `body_extraction_fallback`: a page with both
description regions and generic paragraph markup returns the truncated
short+long description content, not the generic fallback. -/
theorem body_extraction_fallback_witness :
    extract_body ⟨some " short ", some "long مقالات ذات صلة tail",
        [["generic"]]⟩ = "short\n\nlong" :=
  ((body_extraction_fallback
      ⟨some " short ", some "long مقالات ذات صلة tail", [["x"]]⟩ "").1
    (by decide) [["generic"]]).trans (by decide)

theorem mem_insertUrl (u v : String) (l : List String) :
    u ∈ insertUrl v l ↔ u = v ∨ u ∈ l := by
  unfold insertUrl
  split
  · constructor
    · exact Or.inr
    · rintro (rfl | h)
      · assumption
      · exact h
  · exact List.mem_cons

theorem insertUrl_nodup (v : String) (l : List String) (h : l.Nodup) :
    (insertUrl v l).Nodup := by
  unfold insertUrl
  split
  · exact h
  · exact List.nodup_cons.mpr ⟨by assumption, h⟩

theorem loadFold_rows (header : List String) (records : List (List String))
    (acc : List Row × List String) :
    (records.foldl (loadStep header) acc).1
      = acc.1 ++ records.map (dictOfLine header) := by
  induction records generalizing acc with
  | nil => simp
  | cons c rest ih =>
    simp only [List.foldl_cons, List.map_cons, ih, loadStep]
    simp

theorem loadStep_rows (header : List String) (acc : List Row × List String)
    (cells : List String) :
    (loadStep header acc cells).1 = acc.1 ++ [dictOfLine header cells] :=
  rfl

theorem loadStep_urls_of_none (header : List String)
    (acc : List Row × List String) (cells : List String)
    (hg : (dictOfLine header cells).get "URL" = none) :
    (loadStep header acc cells).2 = acc.2 := by
  simp [loadStep, Row.truthyGet, hg]

theorem loadStep_urls_of_empty (header : List String)
    (acc : List Row × List String) (cells : List String)
    (hg : (dictOfLine header cells).get "URL" = some "") :
    (loadStep header acc cells).2 = acc.2 := by
  simp [loadStep, Row.truthyGet, hg]

theorem loadStep_urls_of_some (header : List String)
    (acc : List Row × List String) (cells : List String) (s : String)
    (hg : (dictOfLine header cells).get "URL" = some s) (hs : s ≠ "") :
    (loadStep header acc cells).2 = insertUrl s acc.2 := by
  simp [loadStep, Row.truthyGet, hg, hs]

theorem loadFold_urls (header : List String) (records : List (List String))
    (acc : List Row × List String)
    (hacc : ∀ u : String,
      u ∈ acc.2 ↔ u ≠ "" ∧ ∃ r ∈ acc.1, r.get "URL" = some u) :
    ∀ u : String,
      u ∈ (records.foldl (loadStep header) acc).2 ↔
        u ≠ "" ∧ ∃ r ∈ (records.foldl (loadStep header) acc).1,
          r.get "URL" = some u := by
  induction records generalizing acc with
  | nil => exact hacc
  | cons c rest ih =>
    refine ih (loadStep header acc c) ?_
    intro u
    rw [loadStep_rows]
    cases hg : (dictOfLine header c).get "URL" with
    | none =>
      rw [loadStep_urls_of_none header acc c hg, hacc u]
      constructor
      · rintro ⟨hne, r, hr, hget⟩
        exact ⟨hne, r, List.mem_append_left _ hr, hget⟩
      · rintro ⟨hne, r, hr, hget⟩
        rcases List.mem_append.mp hr with h | h
        · exact ⟨hne, r, h, hget⟩
        · rcases List.mem_singleton.mp h with rfl
          rw [hget] at hg
          cases hg
    | some s =>
      by_cases hs : s = ""
      · subst hs
        rw [loadStep_urls_of_empty header acc c hg, hacc u]
        constructor
        · rintro ⟨hne, r, hr, hget⟩
          exact ⟨hne, r, List.mem_append_left _ hr, hget⟩
        · rintro ⟨hne, r, hr, hget⟩
          rcases List.mem_append.mp hr with h | h
          · exact ⟨hne, r, h, hget⟩
          · rcases List.mem_singleton.mp h with rfl
            rw [hget] at hg
            cases hg
            exact absurd rfl hne
      · rw [loadStep_urls_of_some header acc c s hg hs, mem_insertUrl,
          hacc u]
        constructor
        · rintro (rfl | ⟨hne, r, hr, hget⟩)
          · exact ⟨hs, _,
              List.mem_append_right _ (List.mem_singleton.mpr rfl), hg⟩
          · exact ⟨hne, r, List.mem_append_left _ hr, hget⟩
        · rintro ⟨hne, r, hr, hget⟩
          rcases List.mem_append.mp hr with h | h
          · exact Or.inr ⟨hne, r, h, hget⟩
          · rcases List.mem_singleton.mp h with rfl
            rw [hget] at hg
            cases hg
            exact Or.inl rfl

theorem loadFold_nodup (header : List String) (records : List (List String))
    (acc : List Row × List String) (h : acc.2.Nodup) :
    ((records.foldl (loadStep header) acc).2).Nodup := by
  induction records generalizing acc with
  | nil => exact h
  | cons c rest ih =>
    refine ih (loadStep header acc c) ?_
    cases hg : (dictOfLine header c).get "URL" with
    | none => rw [loadStep_urls_of_none header acc c hg]; exact h
    | some s =>
      by_cases hs : s = ""
      · subst hs
        rw [loadStep_urls_of_empty header acc c hg]
        exact h
      · rw [loadStep_urls_of_some header acc c s hg hs]
        exact insertUrl_nodup _ _ h

/-- C8 counterexample: a corrupt store file (two lines of plain
garbage, no CSV header) is NOT treated as "no prior state" — its first
line is read as a header and the second becomes a record, so the
returned row list is non-empty. -/
theorem load_corrupt_file_not_empty :
    (load_existing_articles (some [["garbage"], ["more garbage"]])).1
      ≠ [] := by
  decide

/-- C8 (amended): `load` pairs the ordered record list with exactly the
set of non-empty URL values appearing in those records; a missing file
yields empty collections; any readable content — corrupt or not — is
parsed leniently (first line as header, remaining lines as records)
rather than failing, but a corrupt file with data lines is not
"no prior state": its lines are returned as records. -/
theorem load_url_set_matches_rows (file : Option (List (List String))) :
    load_existing_articles none = ([], []) ∧
    (∀ u : String,
      u ∈ (load_existing_articles file).2 ↔
        u ≠ "" ∧ ∃ r ∈ (load_existing_articles file).1,
          r.get "URL" = some u) := by
  refine ⟨rfl, ?_⟩
  match file with
  | none => simp [load_existing_articles]
  | some [] => simp [load_existing_articles]
  | some (header :: records) =>
    intro u
    exact loadFold_urls header records ([], []) (by simp) u

/-- C10: pre-existing duplicate rows survive.  Every persisted line
becomes its own record (duplicates included), the known-URL set never
lists a URL twice, and `accept` only ever prepends or leaves the row
list unchanged — it never deletes previously persisted duplicates. -/
theorem duplicate_rows_preserved (header : List String)
    (records : List (List String)) (file : Option (List (List String)))
    (st : Store) (a : Row) :
    (load_existing_articles (some (header :: records))).1
      = records.map (dictOfLine header) ∧
    ((load_existing_articles file).2).Nodup ∧
    ((prepend_article_to_csv_top st a).1.rows = a :: st.rows ∨
     (prepend_article_to_csv_top st a).1.rows = st.rows) := by
  refine ⟨?_, ?_, ?_⟩
  · exact loadFold_rows header records ([], [])
  · match file with
    | none => exact List.nodup_nil
    | some [] => exact List.nodup_nil
    | some (h :: r) => exact loadFold_nodup h r ([], []) List.nodup_nil
  · unfold prepend_article_to_csv_top
    split
    · exact Or.inr rfl
    · split
      · exact Or.inr rfl
      · exact Or.inl rfl

theorem newHandle_singleton (orig : Nat) :
    newHandle ⟨[orig], orig⟩ = orig + 1 := by
  simp [newHandle]

theorem attemptOnce_openFailed (orig : Nat) :
    attemptOnce ⟨[orig], orig⟩ orig AttemptOutcome.openFailed
      = (⟨[orig], orig⟩, none) := by
  simp [attemptOnce]

theorem attemptOnce_timeout (orig : Nat) :
    attemptOnce ⟨[orig], orig⟩ orig AttemptOutcome.timeoutAfterOpen
      = (⟨[orig], orig⟩, none) := by
  have h1 : (orig + 1 == orig) = false := by simp
  have h2 : (orig == orig) = true := by simp
  simp [attemptOnce, newHandle_singleton, List.filter, h1, h2]

theorem attemptOnce_success (orig : Nat) (art : Row) :
    attemptOnce ⟨[orig], orig⟩ orig (AttemptOutcome.success art)
      = (⟨[orig], orig⟩, some art) := by
  have h1 : (orig != orig + 1) = true := by simp
  have h2 : (orig + 1 != orig + 1) = false := by simp
  simp [attemptOnce, newHandle_singleton, List.filter, h1, h2]

theorem scrapeGo_timeout_run (outcomes : Nat → AttemptOutcome) (orig : Nat)
    (hout : ∀ n, outcomes n = AttemptOutcome.timeoutAfterOpen) :
    ∀ n used : Nat,
      scrapeGo outcomes orig n used ⟨[orig], orig⟩
        = (⟨[orig], orig⟩, none, used + n) := by
  intro n
  induction n with
  | zero => intro used; rfl
  | succ k ih =>
    intro used
    rw [scrapeGo, hout used, attemptOnce_timeout]
    show scrapeGo outcomes orig k (used + 1) ⟨[orig], orig⟩ = _
    rw [ih (used + 1)]
    have : used + 1 + k = used + (k + 1) := by omega
    rw [this]

theorem scrapeGo_clean (outcomes : Nat → AttemptOutcome) (orig : Nat) :
    ∀ n used : Nat,
      (scrapeGo outcomes orig n used ⟨[orig], orig⟩).1 = ⟨[orig], orig⟩ := by
  intro n
  induction n with
  | zero => intro used; rfl
  | succ k ih =>
    intro used
    rw [scrapeGo]
    cases hob : outcomes used with
    | success art => rw [attemptOnce_success]
    | timeoutAfterOpen => rw [attemptOnce_timeout]; exact ih (used + 1)
    | openFailed => rw [attemptOnce_openFailed]; exact ih (used + 1)

/-- C4: retry exhaustion and context hygiene.  Starting from a clean
driver (one window, focused), a fetch whose every attempt times out
returns no article after exactly `max_retries` attempts; and whatever
the attempts do — succeed, time out after the tab opens, or fail before
it opens — the driver ends with zero extra open contexts and focus back
on the original window. -/
theorem retry_exhaustion (d : Driver) (m : Nat)
    (outcomes : Nat → AttemptOutcome)
    (hclean : d.windows = [d.current]) :
    ((∀ n, outcomes n = AttemptOutcome.timeoutAfterOpen) →
      scrape_article_in_new_tab d outcomes m = (d, none, m)) ∧
    (scrape_article_in_new_tab d outcomes m).1 = d := by
  obtain ⟨ws, c⟩ := d
  simp only at hclean
  subst hclean
  constructor
  · intro hout
    show scrapeGo outcomes c m 0 ⟨[c], c⟩ = _
    rw [scrapeGo_timeout_run outcomes c hout m 0, Nat.zero_add]
  · exact scrapeGo_clean outcomes c m 0

/-- Concrete instance of `retry_exhaustion`: a driver whose attempts
all time out gives up after exactly 3 attempts with the single original
window still focused. -/
theorem retry_exhaustion_witness :
    scrape_article_in_new_tab ⟨[5], 5⟩
        (fun _ => AttemptOutcome.timeoutAfterOpen) 3
      = (⟨[5], 5⟩, none, 3) :=
  (retry_exhaustion ⟨[5], 5⟩ 3 (fun _ => AttemptOutcome.timeoutAfterOpen)
    rfl).1 (fun _ => rfl)

theorem PyDateTime.lt_iff (a b : PyDateTime) : a.lt b = true ↔
    (a.year < b.year ∨ (a.year = b.year ∧ (a.month < b.month ∨
      (a.month = b.month ∧ (a.day < b.day ∨ (a.day = b.day ∧
        (a.hour < b.hour ∨ (a.hour = b.hour ∧
          a.minute < b.minute)))))))) := by
  unfold PyDateTime.lt
  split_ifs <;> simp <;> omega

theorem PyDateTime.lt_trans {a b c : PyDateTime} (h1 : a.lt b = true)
    (h2 : b.lt c = true) : a.lt c = true := by
  rw [PyDateTime.lt_iff] at h1 h2 ⊢
  omega

theorem synthRow_get_url (u : String) (t : PyDateTime) :
    (synthRow u t).get "URL" = some u :=
  rfl

theorem synthRow_get_published (u : String) (t : PyDateTime) :
    (synthRow u t).get "PublishedAt" = some t.isoMinutes :=
  rfl

theorem articlePublished_synthRow (u : String) (t : PyDateTime)
    (hv : ValidInstant t) : articlePublished (synthRow u t) = some t := by
  unfold articlePublished
  rw [synthRow_get_published]
  simp only [if_neg hv.2]
  exact hv.1

theorem accept_synth (st : Store) (u : String) (t : PyDateTime)
    (hu : u ≠ "") (hfresh : u ∉ st.urls) :
    (prepend_article_to_csv_top st (synthRow u t)).1
      = ⟨write_full_csv st.fs (synthRow u t :: st.rows),
         synthRow u t :: st.rows, u :: st.urls⟩ := by
  simp [prepend_article_to_csv_top, Row.truthyGet, synthRow_get_url, hu,
    hfresh, insertUrl]

theorem processBatch_cons_stop (C : PyDateTime) (u : String)
    (t : PyDateTime) (rest : List NotifItem) (st : Store)
    (hu : u ≠ "") (hfresh : u ∉ st.urls) (hv : ValidInstant t)
    (hlt : t.lt C = true) :
    processBatch C (synthItem (u, t) :: rest) st = (st, true) := by
  simp only [processBatch, synthItem, if_neg hu, if_neg hfresh,
    articlePublished_synthRow u t hv, hlt]
  simp

theorem processBatch_cons_accept (C : PyDateTime) (u : String)
    (t : PyDateTime) (rest : List NotifItem) (st : Store)
    (hu : u ≠ "") (hfresh : u ∉ st.urls) (hv : ValidInstant t)
    (hnlt : t.lt C = false) :
    processBatch C (synthItem (u, t) :: rest) st
      = processBatch C rest
          (prepend_article_to_csv_top st (synthRow u t)).1 := by
  simp only [processBatch, synthItem, if_neg hu, if_neg hfresh,
    articlePublished_synthRow u t hv, hnlt]
  simp

theorem processBatch_prefix (C : PyDateTime)
    (pre : List (String × PyDateTime)) (rest : List NotifItem) :
    ∀ st : Store,
      (∀ p ∈ pre, ValidInstant p.2) →
      (∀ p ∈ pre, p.1 ≠ "") →
      (∀ p ∈ pre, p.2.lt C = false) →
      (pre.map Prod.fst).Nodup →
      (∀ p ∈ pre, p.1 ∉ st.urls) →
      processBatch C (pre.map synthItem ++ rest) st
        = processBatch C rest (acceptAll st pre) := by
  induction pre with
  | nil => intro st _ _ _ _ _; rfl
  | cons p ps ih =>
    intro st hv hne hrec hnodup hfresh
    obtain ⟨u, t⟩ := p
    have hu : u ≠ "" := hne (u, t) (List.mem_cons_self _ _)
    have hufresh : u ∉ st.urls := hfresh (u, t) (List.mem_cons_self _ _)
    have hnodup2 := (List.nodup_cons.mp hnodup).2
    have hhead := (List.nodup_cons.mp hnodup).1
    have hstep : acceptAll st ((u, t) :: ps)
        = acceptAll ⟨write_full_csv st.fs (synthRow u t :: st.rows),
            synthRow u t :: st.rows, u :: st.urls⟩ ps := by
      unfold acceptAll
      rw [List.foldl_cons, accept_synth st u t hu hufresh]
    have hfresh2 : ∀ q ∈ ps,
        q.1 ∉ (⟨write_full_csv st.fs (synthRow u t :: st.rows),
            synthRow u t :: st.rows, u :: st.urls⟩ : Store).urls := by
      intro q hq
      simp only [List.mem_cons]
      rintro (h | h)
      · exact hhead (by rw [← h]; exact List.mem_map.mpr ⟨q, hq, rfl⟩)
      · exact hfresh q (List.mem_cons_of_mem _ hq) h
    rw [List.map_cons, List.cons_append,
      processBatch_cons_accept C u t (ps.map synthItem ++ rest) st hu
        hufresh (hv (u, t) (List.mem_cons_self _ _))
        (hrec (u, t) (List.mem_cons_self _ _)),
      accept_synth st u t hu hufresh,
      ih _ (fun q hq => hv q (List.mem_cons_of_mem _ hq))
        (fun q hq => hne q (List.mem_cons_of_mem _ hq))
        (fun q hq => hrec q (List.mem_cons_of_mem _ hq)) hnodup2 hfresh2,
      hstep]

theorem acceptAll_spec (ps : List (String × PyDateTime)) :
    ∀ st : Store,
      (∀ p ∈ ps, p.1 ≠ "") →
      (∀ p ∈ ps, p.1 ∉ st.urls) →
      (ps.map Prod.fst).Nodup →
      (acceptAll st ps).rows
          = (ps.map (fun p => synthRow p.1 p.2)).reverse ++ st.rows ∧
        (acceptAll st ps).urls = (ps.map Prod.fst).reverse ++ st.urls := by
  induction ps with
  | nil => intro st _ _ _; exact ⟨rfl, rfl⟩
  | cons p ps2 ih =>
    intro st hne hfresh hnodup
    obtain ⟨u, t⟩ := p
    have hu : u ≠ "" := hne (u, t) (List.mem_cons_self _ _)
    have hufresh : u ∉ st.urls := hfresh (u, t) (List.mem_cons_self _ _)
    have hstep : acceptAll st ((u, t) :: ps2)
        = acceptAll ⟨write_full_csv st.fs (synthRow u t :: st.rows),
            synthRow u t :: st.rows, u :: st.urls⟩ ps2 := by
      unfold acceptAll
      rw [List.foldl_cons, accept_synth st u t hu hufresh]
    rw [hstep]
    have hhead := (List.nodup_cons.mp hnodup).1
    have hfresh2 : ∀ q ∈ ps2,
        q.1 ∉ (⟨write_full_csv st.fs (synthRow u t :: st.rows),
            synthRow u t :: st.rows, u :: st.urls⟩ : Store).urls := by
      intro q hq
      simp only [List.mem_cons]
      rintro (h | h)
      · exact hhead (by rw [← h]; exact List.mem_map.mpr ⟨q, hq, rfl⟩)
      · exact hfresh q (List.mem_cons_of_mem _ hq) h
    obtain ⟨hrows, hurls⟩ := ih
      ⟨write_full_csv st.fs (synthRow u t :: st.rows),
        synthRow u t :: st.rows, u :: st.urls⟩
      (fun q hq => hne q (List.mem_cons_of_mem _ hq)) hfresh2
      (List.nodup_cons.mp hnodup).2
    refine ⟨?_, ?_⟩
    · rw [hrows]
      simp
    · rw [hurls]
      simp

theorem all_not_lt_cutoff (C : PyDateTime) :
    ∀ pre : List (String × PyDateTime),
      pre.Pairwise (fun a b => b.2.lt a.2 = true) →
      (∀ p ∈ pre.getLast?, p.2.lt C = false) →
      ∀ p ∈ pre, p.2.lt C = false := by
  intro pre
  induction pre with
  | nil => intro _ _ p hp; cases hp
  | cons a ps ih =>
    intro hpw hlast p hp
    obtain ⟨hrel, hpw2⟩ := List.pairwise_cons.mp hpw
    match ps, hlast with
    | [], hlast =>
      rcases List.mem_singleton.mp hp with rfl
      exact hlast p (by rw [List.getLast?_singleton]; rfl)
    | b :: ps2, hlast =>
      have hlast2 : ∀ q ∈ (b :: ps2).getLast?, q.2.lt C = false := by
        intro q hq
        exact hlast q (by rw [List.getLast?_cons_cons]; exact hq)
      rcases List.mem_cons.mp hp with rfl | hp2
      · obtain ⟨q, hq⟩ : ∃ q, (b :: ps2).getLast? = some q :=
          ⟨(b :: ps2).getLast (List.cons_ne_nil b ps2),
            List.getLast?_eq_getLast_of_ne_nil (List.cons_ne_nil b ps2)⟩
        have hqmem : q ∈ b :: ps2 := by
          obtain ⟨hne2, rfl⟩ :=
            List.mem_getLast?_eq_getLast (by rw [hq]; rfl)
          exact List.getLast_mem hne2
        have hqp : q.2.lt p.2 = true := hrel q hqmem
        have hqC : q.2.lt C = false := hlast2 q (by rw [hq]; rfl)
        cases hpc : p.2.lt C with
        | false => rfl
        | true => rw [PyDateTime.lt_trans hqp hpc] at hqC; cases hqC
      · exact ih hpw2 hlast2 p hp2

/-- C1: stop monotonicity.  For a synthetic feed whose published times
strictly decrease and a cutoff `C` lying strictly above the triggering
item's time but not above the last pre-cutoff item's, one batch over an
empty store accepts exactly the pre-cutoff items in order, stops on the
first item older than `C` without accepting it, and evaluates nothing
after it: the final store holds precisely the pre-cutoff rows (newest
first) and their URLs. -/
theorem stop_monotonicity (pre : List (String × PyDateTime))
    (trig : String × PyDateTime) (post : List (String × PyDateTime))
    (C : PyDateTime) (fs0 : FS)
    (hvalid : ∀ p ∈ pre ++ trig :: post, ValidInstant p.2)
    (hne : ∀ p ∈ pre ++ trig :: post, p.1 ≠ "")
    (hnodup : ((pre ++ [trig]).map Prod.fst).Nodup)
    (hdec : (pre ++ trig :: post).Pairwise (fun a b => b.2.lt a.2 = true))
    (hcut : trig.2.lt C = true)
    (hboundary : ∀ p ∈ pre.getLast?, p.2.lt C = false) :
    processBatch C ((pre ++ trig :: post).map synthItem) (initStore fs0)
      = (acceptAll (initStore fs0) pre, true) ∧
    (acceptAll (initStore fs0) pre).rows
      = (pre.map (fun p => synthRow p.1 p.2)).reverse ∧
    (acceptAll (initStore fs0) pre).urls = (pre.map Prod.fst).reverse := by
  have hdecpre : pre.Pairwise (fun a b => b.2.lt a.2 = true) :=
    (List.pairwise_append.mp hdec).1
  have hrecent := all_not_lt_cutoff C pre hdecpre hboundary
  rw [List.map_append] at hnodup
  have hnodpre : (pre.map Prod.fst).Nodup := (List.nodup_append.mp hnodup).1
  have htrigfresh : trig.1 ∉ pre.map Prod.fst := by
    intro hmem
    exact (List.nodup_append.mp hnodup).2.2 hmem (by simp)
  have hprevalid : ∀ p ∈ pre, ValidInstant p.2 :=
    fun p hp => hvalid p (List.mem_append_left _ hp)
  have hprene : ∀ p ∈ pre, p.1 ≠ "" :=
    fun p hp => hne p (List.mem_append_left _ hp)
  have hprefresh : ∀ p ∈ pre, p.1 ∉ (initStore fs0).urls :=
    fun p _ hmem => (List.not_mem_nil p.1) hmem
  obtain ⟨hrows, hurls⟩ :=
    acceptAll_spec pre (initStore fs0) hprene hprefresh hnodpre
  refine ⟨?_, ?_, ?_⟩
  · rw [List.map_append, processBatch_prefix C pre _ (initStore fs0)
      hprevalid hprene hrecent hnodpre hprefresh, List.map_cons]
    obtain ⟨ut, tt⟩ := trig
    refine processBatch_cons_stop C ut tt _ _ ?_ ?_ ?_ hcut
    · exact hne (ut, tt)
        (List.mem_append_right _ (List.mem_cons_self _ _))
    · rw [hurls]
      intro hmem
      rcases List.mem_append.mp hmem with h | h
      · exact htrigfresh (List.mem_reverse.mp h)
      · simp [initStore] at h
    · exact hvalid (ut, tt)
        (List.mem_append_right _ (List.mem_cons_self _ _))
  · rw [hrows]
    simp [initStore]
  · rw [hurls]
    simp [initStore]

/-- Concrete instance of `stop_monotonicity`: three items with
strictly decreasing times and the cutoff between items 2 and 3 accept
exactly the first two and stop. -/
theorem stop_monotonicity_witness :
    processBatch ⟨2025, 6, 1, 0, 0⟩
        ((([("u1", ⟨2025, 8, 1, 12, 0⟩), ("u2", ⟨2025, 7, 1, 12, 0⟩)] :
            List (String × PyDateTime)) ++
          (("u3", ⟨2025, 5, 1, 12, 0⟩) : String × PyDateTime) ::
            ([("u4", ⟨2025, 4, 1, 12, 0⟩)] :
              List (String × PyDateTime))).map synthItem)
        (initStore ⟨none, none⟩)
      = (acceptAll (initStore ⟨none, none⟩)
          ([("u1", ⟨2025, 8, 1, 12, 0⟩), ("u2", ⟨2025, 7, 1, 12, 0⟩)] :
            List (String × PyDateTime)),
         true) :=
  (stop_monotonicity
    ([("u1", ⟨2025, 8, 1, 12, 0⟩), ("u2", ⟨2025, 7, 1, 12, 0⟩)] :
      List (String × PyDateTime))
    (("u3", ⟨2025, 5, 1, 12, 0⟩) : String × PyDateTime)
    ([("u4", ⟨2025, 4, 1, 12, 0⟩)] : List (String × PyDateTime))
    ⟨2025, 6, 1, 0, 0⟩ ⟨none, none⟩ (by decide) (by decide) (by decide)
    (by decide) (by decide) (by decide)).1

/-- C5: an article with an absent or unparseable published time can
never trigger the stop condition.  Processing such an item continues
into the rest of the batch with the article handed to the store's
accept (subject there only to URL dedup); and whenever a batch does
stop, some processed article had a successfully parsed published time
strictly before the cutoff. -/
theorem unparsed_time_never_stops (item : NotifItem) (u : String)
    (a : Row) (rest : List NotifItem) (st : Store) (C : PyDateTime)
    (hurl : item.url = some u) (hu : u ≠ "")
    (hfetch : item.fetched = some a) (hfresh : u ∉ st.urls)
    (hnotime : articlePublished a = none) :
    processBatch C (item :: rest) st
      = processBatch C rest (prepend_article_to_csv_top st a).1 ∧
    ∀ (items : List NotifItem) (st2 : Store),
      (processBatch C items st2).2 = true →
      ∃ it ∈ items, ∃ r : Row, it.fetched = some r ∧
        ∃ t : PyDateTime, articlePublished r = some t ∧ t.lt C = true := by
  constructor
  · obtain ⟨iu, ift⟩ := item
    simp only at hurl hfetch
    subst hurl
    subst hfetch
    simp only [processBatch, if_neg hu, if_neg hfresh, hnotime]
  · intro items
    induction items with
    | nil =>
      intro st2 h
      simp [processBatch] at h
    | cons it its ih =>
      intro st2 h
      obtain ⟨iu, ift⟩ := it
      cases iu with
      | none =>
        simp only [processBatch] at h
        obtain ⟨w, hw, hrest⟩ := ih st2 h
        exact ⟨w, List.mem_cons_of_mem _ hw, hrest⟩
      | some u2 =>
        cases ift with
        | none =>
          simp only [processBatch] at h
          by_cases h2 : u2 = ""
          · rw [if_pos h2] at h
            obtain ⟨w, hw, hrest⟩ := ih st2 h
            exact ⟨w, List.mem_cons_of_mem _ hw, hrest⟩
          · rw [if_neg h2] at h
            by_cases h3 : u2 ∈ st2.urls
            · rw [if_pos h3] at h
              obtain ⟨w, hw, hrest⟩ := ih st2 h
              exact ⟨w, List.mem_cons_of_mem _ hw, hrest⟩
            · rw [if_neg h3] at h
              obtain ⟨w, hw, hrest⟩ := ih st2 h
              exact ⟨w, List.mem_cons_of_mem _ hw, hrest⟩
        | some r =>
          simp only [processBatch] at h
          by_cases h2 : u2 = ""
          · rw [if_pos h2] at h
            obtain ⟨w, hw, hrest⟩ := ih st2 h
            exact ⟨w, List.mem_cons_of_mem _ hw, hrest⟩
          · rw [if_neg h2] at h
            by_cases h3 : u2 ∈ st2.urls
            · rw [if_pos h3] at h
              obtain ⟨w, hw, hrest⟩ := ih st2 h
              exact ⟨w, List.mem_cons_of_mem _ hw, hrest⟩
            · rw [if_neg h3] at h
              cases hpub : articlePublished r with
              | none =>
                rw [hpub] at h
                replace h : (processBatch C its
                    (prepend_article_to_csv_top st2 r).1).2 = true := h
                obtain ⟨w, hw, hrest⟩ :=
                  ih (prepend_article_to_csv_top st2 r).1 h
                exact ⟨w, List.mem_cons_of_mem _ hw, hrest⟩
              | some t =>
                rw [hpub] at h
                replace h : ((if t.lt C = true then (st2, true)
                    else processBatch C its
                      (prepend_article_to_csv_top st2 r).1)).2 = true := h
                by_cases h4 : t.lt C = true
                · exact ⟨⟨some u2, some r⟩, List.mem_cons_self _ _, r, rfl,
                    t, hpub, h4⟩
                · rw [if_neg h4] at h
                  obtain ⟨w, hw, hrest⟩ :=
                    ih (prepend_article_to_csv_top st2 r).1 h
                  exact ⟨w, List.mem_cons_of_mem _ hw, hrest⟩

/-- Concrete instance of `unparsed_time_never_stops`: an item whose
fetched article has an empty `PublishedAt` is accepted and the batch
continues past it. -/
theorem unparsed_time_never_stops_witness :
    processBatch ⟨2025, 6, 1, 0, 0⟩
        [⟨some "u", some [("PublishedAt", ""), ("URL", "u")]⟩]
        (initStore ⟨none, none⟩)
      = processBatch ⟨2025, 6, 1, 0, 0⟩ []
          (prepend_article_to_csv_top (initStore ⟨none, none⟩)
            [("PublishedAt", ""), ("URL", "u")]).1 :=
  (unparsed_time_never_stops
    ⟨some "u", some [("PublishedAt", ""), ("URL", "u")]⟩ "u"
    [("PublishedAt", ""), ("URL", "u")] [] (initStore ⟨none, none⟩)
    ⟨2025, 6, 1, 0, 0⟩ rfl (by decide) rfl (by decide) (by decide)).1

end Jadeed
